import Mathlib

/-!
Verification of the dataTools repository: a shallow embedding of the
SQLite-backed table store (src/dataFetcher.py), the two data-ingestion
modules (src/data_ingestion.py and src/dataIngestion.py) and the scaling
step, together with theorems settling the specification claims.

Conventions of the embedding:
  - TEXT cells of the store are Lean Strings; a whole row is a list of cells
    aligned with the column list of the table.
  - pandas to_datetime is abstracted by a parameter dateParse : String → Nat
    mapping a date string to its calendar-date key, and pandas
    to_numeric(errors="coerce") by parseNum : String → Option ℚ, where none
    is the missing value NaN (non-parseable input yields none).
  - float values are modelled as ℚ inside the alignment pipeline (their
    exact decimal values) and as ℝ in the scaling step, whose standard
    deviation involves a square root.
-/

namespace DataTools

/-- A table as persisted in the SQLite store: column names in schema order
(as PRAGMA table_info reports them) and rows of TEXT cells aligned with the
columns, in insertion order. -/
structure SeriesTable where
  columns : List String
  rows : List (List String)
deriving Repr, DecidableEq

/-- The store maps table names to tables, one table per series. -/
abbrev Store := List (String × SeriesTable)

/-- Value of the column with the given name in a row: lookup by column
label, as pandas does after reading SELECT * results into a DataFrame.
An absent column reads as the empty string. -/
def getCell (cols : List String) (row : List String) (name : String) : String :=
  ((cols.zip row).lookup name).getD ""

/-- Lexicographic order on character sequences by code point. -/
def charListLt : List Char → List Char → Bool
  | [], [] => false
  | [], _ :: _ => true
  | _ :: _, [] => false
  | a :: as, b :: bs =>
      if a.toNat < b.toNat then true
      else if b.toNat < a.toNat then false
      else charListLt as bs

/-- SQLite TEXT comparison (memcmp order on the encoded bytes; on the ASCII
date strings of this pipeline that is lexicographic order by character). -/
def textLt (a b : String) : Bool := charListLt a.data b.data

/-- The SQL commands the scripts issue against the store. -/
inductive SqlCmd where
  | pragmaTableInfo (table : String)
  | selectAfter (table : String) (minDate : String)
  | insertInto (table : String) (row : List String)
  | createTable (table : String) (columns : List String)
  | dropTable (table : String)
deriving Repr, DecidableEq

/-- Result of executing one SQL command. -/
inductive QueryResult where
  | resultRows (rs : List (List String))
  | resultCols (cs : List String)
  | done
deriving Repr, DecidableEq

/-- Executing one SQL command against the store. SELECT ... WHERE DATE >
min compares the TEXT date cell with the bound string, as SQLite compares
TEXT lexicographically; PRAGMA table_info returns the schema column list.
Only insertInto, createTable and dropTable change the store. -/
def execCmd (c : SqlCmd) (s : Store) : Store × QueryResult :=
  match c with
  | .pragmaTableInfo t =>
      (s, .resultCols (((s.lookup t).map SeriesTable.columns).getD []))
  | .selectAfter t d =>
      let tbl := (s.lookup t).getD ⟨[], []⟩
      (s, .resultRows (tbl.rows.filter (fun r => textLt d (getCell tbl.columns r "date"))))
  | .insertInto t r =>
      (s.map (fun p => if p.1 = t then (p.1, ⟨p.2.columns, p.2.rows ++ [r]⟩) else p), .done)
  | .createTable t cs =>
      (if (s.lookup t).isSome then s else s ++ [(t, ⟨cs, []⟩)], .done)
  | .dropTable t =>
      (s.filter (fun p => p.1 ≠ t), .done)

def asRows : QueryResult → List (List String)
  | .resultRows rs => rs
  | _ => []

def asCols : QueryResult → List String
  | .resultCols cs => cs
  | _ => []

/-- Rows a SELECT * ... WHERE DATE > minDate query returns for a table. -/
def selectedRows (store : Store) (name minDate : String) : List (List String) :=
  asRows (execCmd (.selectAfter name minDate) store).2

/-- Column list PRAGMA table_info reports for a table. -/
def tableCols (store : Store) (name : String) : List String :=
  asCols (execCmd (.pragmaTableInfo name) store).2

/-! ## Per-series processing inside fetch_and_process_data -/

/-- Rows indexed by their parsed date key, as after df.set_index("date"):
every row keeps its full cell list, and its index is the parsed date. -/
def indexedRows (dateParse : String → Nat) (cols : List String)
    (rows : List (List String)) : List (Nat × List String) :=
  rows.map (fun r => (dateParse (getCell cols r "date"), r))

/-- Cells of a row paired down to the non-date columns. After
df.set_index("date") the date column is no longer a data column, so pandas
drop_duplicates compares exactly these cells (the index is ignored). -/
def nonDateCells (cols : List String) (row : List String) : List String :=
  ((cols.zip row).filter (fun p => p.1 ≠ "date")).map Prod.snd

/-- Keep the first of every group of rows that agree on the given key,
dropping every row whose key was already seen. With key = Prod.fst this is
pandas index.duplicated(keep="first") row removal; with key = the non-date
row contents it is pandas drop_duplicates(). -/
def dedupRowsByAux {κ : Type} [DecidableEq κ] (key : Nat × List String → κ)
    (seen : List κ) : List (Nat × List String) → List (Nat × List String)
  | [] => []
  | p :: rest =>
      if key p ∈ seen then dedupRowsByAux key seen rest
      else p :: dedupRowsByAux key (key p :: seen) rest

def dedupRowsBy {κ : Type} [DecidableEq κ] (key : Nat × List String → κ)
    (l : List (Nat × List String)) : List (Nat × List String) :=
  dedupRowsByAux key [] l

/-- Coerce the named column to numeric and keep only it: the combination of
pd.to_numeric(df[name], errors="coerce") and the final df[name] projection.
Non-parseable cells become none (NaN), never 0. -/
def coerceColumn (parseNum : String → Option ℚ) (cols : List String)
    (name : String) (pairs : List (Nat × List String)) : List (Nat × Option ℚ) :=
  pairs.map (fun p => (p.1, parseNum (getCell cols p.2 name)))

/-- Per-series processing of src/data_ingestion.py fetch_and_process_data:
index by date, drop rows with a duplicated date index keeping the first,
then coerce and keep the column named column_names[-1] (the final column of
the schema). -/
def processFetched_v1 (dateParse : String → Nat) (parseNum : String → Option ℚ)
    (cols : List String) (rows : List (List String)) : List (Nat × Option ℚ) :=
  coerceColumn parseNum cols (cols.getD (cols.length - 1) "")
    (dedupRowsBy Prod.fst (indexedRows dateParse cols rows))

/-- Per-series processing of src/dataIngestion.py fetch_and_process_data:
index by date, df.drop_duplicates() (which compares the non-date column
cells and ignores the date index), then coerce and keep the column named
column_names[-2]. -/
def processFetched_v2 (dateParse : String → Nat) (parseNum : String → Option ℚ)
    (cols : List String) (rows : List (List String)) : List (Nat × Option ℚ) :=
  coerceColumn parseNum cols (cols.getD (cols.length - 2) "")
    (dedupRowsBy (fun q => nonDateCells cols q.2) (indexedRows dateParse cols rows))

/-! ## Alignment of the per-series sequences -/

/-- Date keys of a per-series sequence (the pandas index). -/
def keysOf (d : List (Nat × Option ℚ)) : List Nat := d.map Prod.fst

/-- First-occurrence deduplication of a key list, as pandas set operations
return unique labels. -/
def dedupKeepFirstAux (seen : List Nat) : List Nat → List Nat
  | [] => []
  | k :: rest =>
      if k ∈ seen then dedupKeepFirstAux seen rest
      else k :: dedupKeepFirstAux (k :: seen) rest

def dedupKeepFirst (l : List Nat) : List Nat := dedupKeepFirstAux [] l

/-- pandas Index.intersection: the labels of the calling index that occur
in the other index, deduplicated, in the order of the calling index (for the
monotone indexes of this pipeline this is also the sorted order pandas
produces). -/
def indexIntersection (self other : List Nat) : List Nat :=
  dedupKeepFirst (self.filter (fun k => k ∈ other))

/-- common_dates = dfs[0].index, then intersected with every later index. -/
def commonDates : List (List Nat) → List Nat
  | [] => []
  | i0 :: rest => rest.foldl indexIntersection i0

/-- df.loc with a list of unique labels: for each label in order, every row
of the frame carrying that label, in frame order. -/
def locRows (d : List (Nat × Option ℚ)) (labels : List Nat) : List (Nat × Option ℚ) :=
  labels.flatMap (fun k => d.filter (fun p => p.1 = k))

/-- First available (non-missing) value of a list, scanning forward. -/
def nextAvailable : List (Option ℚ) → Option ℚ
  | [] => none
  | some q :: _ => some q
  | none :: rest => nextAvailable rest

/-- pandas bfill on a value sequence: every missing value is replaced by the
next available value after it; a missing value with no later available value
stays missing. -/
def bfillList : List (Option ℚ) → List (Option ℚ)
  | [] => []
  | v :: rest =>
      (match v with
        | some q => some q
        | none => nextAvailable rest) :: bfillList rest

/-- bfill applied to a date-indexed series: keys are unchanged, values are
backward-filled in the row order of the series. -/
def bfillPairs (d : List (Nat × Option ℚ)) : List (Nat × Option ℚ) :=
  (d.map Prod.fst).zip (bfillList (d.map Prod.snd))

/-- Restriction of one series to the common dates:
df.loc[df.index.intersection(common_dates)]. -/
def restrictToCommon (dfs : List (List (Nat × Option ℚ)))
    (d : List (Nat × Option ℚ)) : List (Nat × Option ℚ) :=
  locRows d (indexIntersection (keysOf d) (commonDates (dfs.map keysOf)))

/-- The shared alignment tail of both fetch_and_process_data versions:
compute the common dates, restrict every series to them and backward-fill. -/
def alignSeries (dfs : List (List (Nat × Option ℚ))) : List (List (Nat × Option ℚ)) :=
  dfs.map (fun d => bfillPairs (restrictToCommon dfs d))

/-! ## The fetch loop over the store -/

/-- One iteration of the loop body: execute the SELECT, then PRAGMA
table_info, and process the fetched rows into a per-series sequence. -/
def ingestorStep (proc : List String → List (List String) → List (Nat × Option ℚ))
    (minDate : String) (store : Store) (name : String) :
    Store × List (Nat × Option ℚ) :=
  let r1 := execCmd (.selectAfter name minDate) store
  let r2 := execCmd (.pragmaTableInfo name) r1.1
  (r2.1, proc (asCols r2.2) (asRows r1.2))

/-- The for-loop of fetch_and_process_data: thread the store through every
query and collect the per-series sequences in list order. -/
def fetchLoop (proc : List String → List (List String) → List (Nat × Option ℚ))
    (minDate : String) (store : Store) (names : List String) :
    Store × List (List (Nat × Option ℚ)) :=
  names.foldl
    (fun acc name =>
      let st := ingestorStep proc minDate acc.1 name
      (st.1, acc.2 ++ [st.2]))
    (store, [])

/-- fetch_and_process_data of src/data_ingestion.py: fetch and process every
requested series, then align. The returned pair is (store after the call,
aligned per-series sequences). -/
def fetch_and_process_data_v1 (dateParse : String → Nat)
    (parseNum : String → Option ℚ) (minDate : String) (store : Store)
    (names : List String) : Store × List (List (Nat × Option ℚ)) :=
  let l := fetchLoop (processFetched_v1 dateParse parseNum) minDate store names
  (l.1, alignSeries l.2)

/-- fetch_and_process_data of src/dataIngestion.py, identical except for the
per-series processing. -/
def fetch_and_process_data_v2 (dateParse : String → Nat)
    (parseNum : String → Option ℚ) (minDate : String) (store : Store)
    (names : List String) : Store × List (List (Nat × Option ℚ)) :=
  let l := fetchLoop (processFetched_v2 dateParse parseNum) minDate store names
  (l.1, alignSeries l.2)

/-- The exact SQL command trace a fetch_and_process_data call issues, in
order: for each table, the SELECT then the PRAGMA. -/
def ingestorTrace (minDate : String) (names : List String) : List SqlCmd :=
  names.flatMap (fun n => [.selectAfter n minDate, .pragmaTableInfo n])

/-- A command is a read when it is a SELECT or a PRAGMA table_info. -/
def isReadCmd : SqlCmd → Bool
  | .pragmaTableInfo _ => true
  | .selectAfter _ _ => true
  | _ => false

/-- Run a command list against the store, keeping only the store state. -/
def runCmds (cs : List SqlCmd) (s : Store) : Store :=
  cs.foldl (fun st c => (execCmd c st).1) s

/-! ## scale_data

Both ingestion files concatenate the aligned per-series sequences into one
table (one column per series) and run the sklearn StandardScaler over it. The
scaler standardizes each column independently with the per-column arithmetic
mean and its population standard deviation (it divides by N, not N - 1),
and - per its documented handling of zeros in scale_ - replaces a zero
standard deviation by 1 before dividing, so constant columns map to 0
rather than to NaN or infinity. -/

noncomputable section

/-- Arithmetic mean of a column over the rows present. -/
def meanR (xs : List ℝ) : ℝ := xs.sum / xs.length

/-- Population variance of a column (denominator N). -/
def popVar (xs : List ℝ) : ℝ :=
  (xs.map (fun x => (x - meanR xs) ^ 2)).sum / xs.length

/-- Population standard deviation of a column. -/
def popStd (xs : List ℝ) : ℝ := Real.sqrt (popVar xs)

/-- The sklearn handling of zeros in the per-column scale: a zero standard
deviation is replaced by 1, so that a constant feature divides by 1. -/
def handleZerosInScale (s : ℝ) : ℝ := if s = 0 then 1 else s

/-- StandardScaler on one column: (value - mean) / scale for every cell. -/
def standardScale (xs : List ℝ) : List ℝ :=
  xs.map (fun x => (x - meanR xs) / handleZerosInScale (popStd xs))

/-- scale_data of both ingestion files: each per-series column standardized
independently. -/
def scale_data (dfs : List (List ℝ)) : List (List ℝ) :=
  dfs.map standardScale

end

/-! ## The DataFetcher (src/dataFetcher.py) -/

namespace Fetcher

/-- Python truthiness of an sqlite3 Cursor object: the Cursor class defines
neither a boolean conversion nor a length, so in a boolean context every
cursor object is truthy, whatever rows the query found. -/
def cursorTruthy : Bool := true

/-- Parameter binding of the Python sqlite3 execute: a plain string passed as
the parameters argument is treated as a sequence of one-character
parameters, so binding succeeds exactly when the length of the string equals the
number of placeholders; otherwise execute raises a ProgrammingError. -/
def bindParams (placeholders : Nat) (params : String) : Except String Unit :=
  if params.length = placeholders then Except.ok ()
  else Except.error "Incorrect number of bindings supplied"

/-- The row fetch_and_insert_economic_data would insert for one observation:
statement.get(col, None) for each column - none is SQL NULL for an absent
field - followed by the load timestamp. -/
def econRow (columns : List String) (timestamp : String)
    (statement : List (String × String)) : List (Option String) :=
  columns.map (fun c => statement.lookup c) ++ [some timestamp]

/-- One iteration of the insert loop of fetch_and_insert_economic_data:
read statement["date"] (a KeyError aborts), execute the duplicate-check
SELECT with the bare string (statement["date"]) as its parameter sequence,
and insert only when the returned cursor object is falsy. -/
def econStep (columns : List String) (timestamp : String)
    (table : List (List (Option String))) (statement : List (String × String)) :
    Except String (List (List (Option String))) := do
  let dateVal ← match statement.lookup "date" with
    | some d => Except.ok d
    | none => Except.error "KeyError: date"
  let _ ← bindParams 1 dateVal
  if cursorTruthy = false then
    Except.ok (table ++ [econRow columns timestamp statement])
  else
    Except.ok table

/-- fetch_and_insert_economic_data after a successful API response: an empty
observation list returns at once; otherwise the column list is read off the
first observation and the insert loop runs inside the try block of the method.
Any exception is caught before conn.commit() runs, so the uncommitted
inserts of a failed run are discarded and the table is left as it was. -/
def fetch_and_insert_economic_data (timestamp : String)
    (observations : List (List (String × String)))
    (table : List (List (Option String))) : List (List (Option String)) :=
  match observations with
  | [] => table
  | first :: _ =>
      let columns := first.map Prod.fst
      match observations.foldlM (econStep columns timestamp) table with
      | .ok t => t
      | .error _ => table

/-- Python truthiness of the ticker argument in _insert_data: None and the
empty string are falsy, any other string is truthy. -/
def tickerTruthy : Option String → Bool
  | none => false
  | some t => decide (t ≠ "")

/-- Column list create_table builds: the identity column, the ticker column
for stock data, one TEXT column per source field, and the load timestamp. -/
def createTableColumns (is_stock : Bool) (columns : List String) : List String :=
  ["id"] ++ (if is_stock then ["ticker"] else []) ++ columns ++ ["record_load_timestamp"]

/-- The row _insert_data builds for one record, as (column, value) pairs:
the ticker when truthy, statement.get(col, "") for each column - an absent
field becomes the empty string - and the load timestamp. -/
def insertRowFor (ticker : Option String) (columns : List String)
    (timestamp : String) (statement : List (String × String)) :
    List (String × String) :=
  (if tickerTruthy ticker then [("ticker", ticker.getD "")] else [])
    ++ columns.map (fun c => (c, (statement.lookup c).getD ""))
    ++ [("record_load_timestamp", timestamp)]

/-- _insert_data: one row appended per input record, in input order. -/
def insert_data (ticker : Option String) (columns : List String)
    (timestamp : String) (data : List (List (String × String)))
    (table : List (List (String × String))) : List (List (String × String)) :=
  table ++ data.map (insertRowFor ticker columns timestamp)

end Fetcher

/-! ## Helper lemmas -/

theorem mem_dedupKeepFirstAux {k : Nat} :
    ∀ (l : List Nat) (seen : List Nat),
      k ∈ dedupKeepFirstAux seen l ↔ k ∈ l ∧ k ∉ seen := by
  intro l
  induction l with
  | nil => intro seen; simp [dedupKeepFirstAux]
  | cons j rest ih =>
      intro seen
      by_cases hj : j ∈ seen
      · rw [dedupKeepFirstAux, if_pos hj, ih]
        constructor
        · rintro ⟨h1, h2⟩
          exact ⟨List.mem_cons_of_mem _ h1, h2⟩
        · rintro ⟨h1, h2⟩
          rcases List.mem_cons.mp h1 with rfl | h1
          · exact absurd hj h2
          · exact ⟨h1, h2⟩
      · rw [dedupKeepFirstAux, if_neg hj, List.mem_cons, ih]
        constructor
        · rintro (rfl | ⟨h1, h2⟩)
          · exact ⟨List.mem_cons_self _ _, hj⟩
          · exact ⟨List.mem_cons_of_mem _ h1,
              fun hc => h2 (List.mem_cons_of_mem _ hc)⟩
        · rintro ⟨h1, h2⟩
          rcases List.mem_cons.mp h1 with rfl | h1
          · exact Or.inl rfl
          · by_cases hkj : k = j
            · exact Or.inl hkj
            · refine Or.inr ⟨h1, fun hc => ?_⟩
              rcases List.mem_cons.mp hc with h | h
              · exact hkj h
              · exact h2 h

theorem mem_dedupKeepFirst {k : Nat} {l : List Nat} :
    k ∈ dedupKeepFirst l ↔ k ∈ l := by
  rw [dedupKeepFirst, mem_dedupKeepFirstAux]
  simp

theorem nodup_dedupKeepFirstAux :
    ∀ (l : List Nat) (seen : List Nat), (dedupKeepFirstAux seen l).Nodup := by
  intro l
  induction l with
  | nil => intro seen; simp [dedupKeepFirstAux]
  | cons j rest ih =>
      intro seen
      by_cases hj : j ∈ seen
      · rw [dedupKeepFirstAux, if_pos hj]
        exact ih seen
      · rw [dedupKeepFirstAux, if_neg hj, List.nodup_cons]
        refine ⟨fun hc => ?_, ih _⟩
        exact ((mem_dedupKeepFirstAux rest (j :: seen)).mp hc).2 (List.mem_cons_self _ _)

theorem nodup_dedupKeepFirst (l : List Nat) : (dedupKeepFirst l).Nodup :=
  nodup_dedupKeepFirstAux l []

theorem dedupKeepFirstAux_eq_self :
    ∀ (l : List Nat) (seen : List Nat), l.Nodup → (∀ x ∈ l, x ∉ seen) →
      dedupKeepFirstAux seen l = l := by
  intro l
  induction l with
  | nil => intro seen _ _; rfl
  | cons j rest ih =>
      intro seen hnd hdisj
      rw [List.nodup_cons] at hnd
      rw [dedupKeepFirstAux, if_neg (hdisj j (List.mem_cons_self _ _))]
      congr 1
      refine ih _ hnd.2 (fun x hx hc => ?_)
      rcases List.mem_cons.mp hc with rfl | hc2
      · exact hnd.1 hx
      · exact hdisj x (List.mem_cons_of_mem _ hx) hc2

theorem dedupKeepFirst_eq_self {l : List Nat} (hnd : l.Nodup) :
    dedupKeepFirst l = l :=
  dedupKeepFirstAux_eq_self l [] hnd (by simp)

theorem mem_dedupRowsByAux {κ : Type} [DecidableEq κ] (key : Nat × List String → κ) :
    ∀ (l : List (Nat × List String)) (seen : List κ) {p},
      p ∈ dedupRowsByAux key seen l → p ∈ l ∧ key p ∉ seen := by
  intro l
  induction l with
  | nil => intro seen p h; simp [dedupRowsByAux] at h
  | cons q rest ih =>
      intro seen p h
      by_cases hq : key q ∈ seen
      · rw [dedupRowsByAux, if_pos hq] at h
        have := ih seen h
        exact ⟨List.mem_cons_of_mem _ this.1, this.2⟩
      · rw [dedupRowsByAux, if_neg hq] at h
        rcases List.mem_cons.mp h with rfl | h2
        · exact ⟨List.mem_cons_self _ _, hq⟩
        · have := ih (key q :: seen) h2
          exact ⟨List.mem_cons_of_mem _ this.1,
            fun hc => this.2 (List.mem_cons_of_mem _ hc)⟩

theorem mem_dedupRowsBy {κ : Type} [DecidableEq κ] (key : Nat × List String → κ)
    {l : List (Nat × List String)} {p} (h : p ∈ dedupRowsBy key l) : p ∈ l :=
  (mem_dedupRowsByAux key l [] h).1

theorem map_fst_dedupRowsByAux :
    ∀ (l : List (Nat × List String)) (seen : List Nat),
      (dedupRowsByAux Prod.fst seen l).map Prod.fst
        = dedupKeepFirstAux seen (l.map Prod.fst) := by
  intro l
  induction l with
  | nil => intro seen; rfl
  | cons p rest ih =>
      intro seen
      by_cases hp : p.1 ∈ seen
      · rw [dedupRowsByAux, if_pos hp, List.map_cons, dedupKeepFirstAux, if_pos hp, ih]
      · rw [dedupRowsByAux, if_neg hp, List.map_cons, List.map_cons, dedupKeepFirstAux,
          if_neg hp, ih]

theorem map_fst_dedupRowsBy (l : List (Nat × List String)) :
    (dedupRowsBy Prod.fst l).map Prod.fst = dedupKeepFirst (l.map Prod.fst) :=
  map_fst_dedupRowsByAux l []

theorem find?_dedupRowsByAux_fst :
    ∀ (l : List (Nat × List String)) (seen : List Nat) (p : Nat × List String),
      p ∈ dedupRowsByAux Prod.fst seen l →
        l.find? (fun q => q.1 == p.1) = some p := by
  intro l
  induction l with
  | nil => intro seen p h; simp [dedupRowsByAux] at h
  | cons q rest ih =>
      intro seen p h
      by_cases hq : q.1 ∈ seen
      · rw [dedupRowsByAux, if_pos hq] at h
        have hmem := mem_dedupRowsByAux Prod.fst rest seen h
        have hne : ¬ (q.1 = p.1) := fun hc => hmem.2 (hc ▸ hq)
        rw [List.find?_cons_of_neg _ (by simpa using hne)]
        exact ih seen p h
      · rw [dedupRowsByAux, if_neg hq] at h
        rcases List.mem_cons.mp h with rfl | h2
        · rw [List.find?_cons_of_pos _ (by simp)]
        · have hmem := mem_dedupRowsByAux Prod.fst rest (q.1 :: seen) h2
          have hne : ¬ (q.1 = p.1) := fun hc => hmem.2 (hc ▸ List.mem_cons_self _ _)
          rw [List.find?_cons_of_neg _ (by simpa using hne)]
          exact ih (q.1 :: seen) p h2

theorem find?_dedupRowsBy_fst {l : List (Nat × List String)} {p : Nat × List String}
    (h : p ∈ dedupRowsBy Prod.fst l) : l.find? (fun q => q.1 == p.1) = some p :=
  find?_dedupRowsByAux_fst l [] p h

theorem bfillList_length (l : List (Option ℚ)) : (bfillList l).length = l.length := by
  induction l with
  | nil => rfl
  | cons v rest ih => simp [bfillList, ih]

theorem keysOf_bfillPairs (d : List (Nat × Option ℚ)) :
    keysOf (bfillPairs d) = keysOf d := by
  unfold keysOf bfillPairs
  rw [List.map_fst_zip]
  rw [bfillList_length, List.length_map, List.length_map]

theorem bfillList_getD (l : List (Option ℚ)) :
    ∀ i, i < l.length →
      (bfillList l).getD i none
        = match l.getD i none with
          | some q => some q
          | none => nextAvailable (l.drop (i + 1)) := by
  induction l with
  | nil => intro i h; simp at h
  | cons v rest ih =>
      intro i h
      match i with
      | 0 =>
          cases v with
          | none => simp [bfillList, List.getD]
          | some q => simp [bfillList, List.getD]
      | Nat.succ j =>
          have hj : j < rest.length := by simpa [Nat.succ_lt_succ_iff] using h
          have := ih j hj
          simpa [bfillList, List.getD_cons_succ] using this

theorem mem_indexIntersection {k : Nat} {self other : List Nat} :
    k ∈ indexIntersection self other ↔ k ∈ self ∧ k ∈ other := by
  rw [indexIntersection, mem_dedupKeepFirst]
  simp [List.mem_filter]

theorem mem_commonDates {k : Nat} :
    ∀ (rest : List (List Nat)) (i0 : List Nat),
      k ∈ commonDates (i0 :: rest) ↔ k ∈ i0 ∧ ∀ i ∈ rest, k ∈ i := by
  intro rest
  induction rest with
  | nil => intro i0; simp [commonDates]
  | cons i tl ih =>
      intro i0
      have hstep : commonDates (i0 :: i :: tl)
          = commonDates (indexIntersection i0 i :: tl) := rfl
      rw [hstep, ih, mem_indexIntersection]
      constructor
      · rintro ⟨⟨h0, hi⟩, htl⟩
        refine ⟨h0, fun j hj => ?_⟩
        rcases List.mem_cons.mp hj with rfl | hj
        · exact hi
        · exact htl j hj
      · rintro ⟨h0, hall⟩
        exact ⟨⟨h0, hall i (List.mem_cons_self _ _)⟩,
          fun j hj => hall j (List.mem_cons_of_mem _ hj)⟩

theorem ingestorStep_fst (proc : List String → List (List String) → List (Nat × Option ℚ))
    (minDate : String) (store : Store) (name : String) :
    (ingestorStep proc minDate store name).1 = store := rfl

theorem fetchLoop_eq (proc : List String → List (List String) → List (Nat × Option ℚ))
    (minDate : String) (store : Store) (names : List String) :
    fetchLoop proc minDate store names
      = (store, names.map (fun n => proc (tableCols store n) (selectedRows store n minDate))) := by
  have aux : ∀ (ns : List String) (acc : List (List (Nat × Option ℚ))),
      ns.foldl
          (fun acc name =>
            let st := ingestorStep proc minDate acc.1 name
            (st.1, acc.2 ++ [st.2]))
          (store, acc)
        = (store, acc ++ ns.map (fun n => proc (tableCols store n) (selectedRows store n minDate))) := by
    intro ns
    induction ns with
    | nil => intro acc; simp
    | cons n tl ih =>
        intro acc
        rw [List.foldl_cons]
        have hstep :
            (let st := ingestorStep proc minDate (store, acc).1 n
             ((st.1 : Store), (store, acc).2 ++ [st.2]))
            = ((store : Store),
               acc ++ [proc (tableCols store n) (selectedRows store n minDate)]) := rfl
        rw [hstep, ih, List.map_cons, List.append_assoc]
        simp
  simpa [fetchLoop] using aux names []

theorem keysOf_append (a b : List (Nat × Option ℚ)) :
    keysOf (a ++ b) = keysOf a ++ keysOf b :=
  List.map_append _ _ _

theorem filter_key_eq_nil {d : List (Nat × Option ℚ)} {k : Nat} (h : k ∉ keysOf d) :
    d.filter (fun p => p.1 = k) = [] := by
  induction d with
  | nil => rfl
  | cons p rest ih =>
      have h1 : k ≠ p.1 ∧ k ∉ keysOf rest := by
        simpa [keysOf, not_or] using h
      rw [List.filter_cons_of_neg (by simpa using fun hpk : p.1 = k => h1.1 hpk.symm),
        ih h1.2]

theorem keysOf_filter_key {d : List (Nat × Option ℚ)} (hd : (keysOf d).Nodup) (k : Nat) :
    keysOf (d.filter (fun p => p.1 = k)) = if k ∈ keysOf d then [k] else [] := by
  induction d with
  | nil => simp [keysOf]
  | cons p rest ih =>
      have hd2 : p.1 ∉ keysOf rest ∧ (keysOf rest).Nodup := by
        simpa [keysOf] using hd
      by_cases hk : p.1 = k
      · subst hk
        rw [List.filter_cons_of_pos (by simp)]
        have hnil : rest.filter (fun p2 => p2.1 = p.1) = [] := filter_key_eq_nil hd2.1
        have hmem : p.1 ∈ keysOf (p :: rest) := by simp [keysOf]
        rw [if_pos hmem]
        simp [keysOf, hnil]
      · rw [List.filter_cons_of_neg (by simpa using hk), ih hd2.2]
        have hne : ¬ (k = p.1) := fun h => hk h.symm
        have hmem : (k ∈ keysOf (p :: rest)) ↔ (k ∈ keysOf rest) := by
          simp [keysOf, hne]
        by_cases hk2 : k ∈ keysOf rest
        · rw [if_pos hk2, if_pos (hmem.mpr hk2)]
        · rw [if_neg hk2, if_neg (fun hc => hk2 (hmem.mp hc))]

theorem keysOf_locRows {d : List (Nat × Option ℚ)} (hd : (keysOf d).Nodup) :
    ∀ labels : List Nat,
      keysOf (locRows d labels) = labels.filter (fun k => k ∈ keysOf d) := by
  intro labels
  induction labels with
  | nil => rfl
  | cons k ls ih =>
      have hsplit : locRows d (k :: ls) = d.filter (fun p => p.1 = k) ++ locRows d ls := by
        simp [locRows]
      rw [hsplit, keysOf_append, ih, keysOf_filter_key hd k, List.filter_cons]
      by_cases hk : k ∈ keysOf d
      · simp [hk]
      · simp [hk]

theorem keysOf_aligned {dfs : List (List (Nat × Option ℚ))} {d : List (Nat × Option ℚ)}
    (hd : (keysOf d).Nodup) :
    keysOf (bfillPairs (restrictToCommon dfs d))
      = (keysOf d).filter (fun k => k ∈ commonDates (dfs.map keysOf)) := by
  rw [restrictToCommon, keysOf_bfillPairs, keysOf_locRows hd]
  have h1 : indexIntersection (keysOf d) (commonDates (dfs.map keysOf))
      = (keysOf d).filter (fun k => k ∈ commonDates (dfs.map keysOf)) := by
    rw [indexIntersection, dedupKeepFirst_eq_self (hd.filter _)]
  rw [h1]
  exact List.filter_eq_self.mpr (fun a ha => by simpa using (List.mem_filter.mp ha).1)

theorem processFetched_v1_nil (dateParse : String → Nat)
    (parseNum : String → Option ℚ) (cols : List String) :
    processFetched_v1 dateParse parseNum cols [] = [] := rfl

theorem processFetched_v2_nil (dateParse : String → Nat)
    (parseNum : String → Option ℚ) (cols : List String) :
    processFetched_v2 dateParse parseNum cols [] = [] := rfl

theorem commonDates_eq_nil_of_mem_nil {dfs : List (List (Nat × Option ℚ))}
    (h : [] ∈ dfs) : commonDates (dfs.map keysOf) = [] := by
  cases dfs with
  | nil => simp at h
  | cons d0 rest =>
      rw [List.eq_nil_iff_forall_not_mem]
      intro k hk
      rw [List.map_cons] at hk
      have hmem := (mem_commonDates _ _).mp hk
      rcases List.mem_cons.mp h with rfl | h2
      · simpa [keysOf] using hmem.1
      · have := hmem.2 (keysOf []) (List.mem_map_of_mem keysOf h2)
        simp [keysOf] at this

theorem align_all_nil_of_mem_nil {dfs : List (List (Nat × Option ℚ))}
    (h : [] ∈ dfs) : ∀ d ∈ alignSeries dfs, d = [] := by
  intro d hd
  rw [alignSeries, List.mem_map] at hd
  obtain ⟨a, _, rfl⟩ := hd
  have hcnil := commonDates_eq_nil_of_mem_nil h
  rw [restrictToCommon, hcnil]
  have hlab : indexIntersection (keysOf a) [] = [] := by
    rw [indexIntersection]
    have : (keysOf a).filter (fun k => k ∈ ([] : List Nat)) = [] := by
      simp
    rw [this]
    rfl
  rw [hlab]
  rfl

/-! ## Concrete fixtures for witnesses and counterexamples -/

/-- Concrete stand-in for pandas to_datetime on the fixture dates: ISO date
strings map to small calendar keys in date order. -/
def dp0 : String → Nat := fun s =>
  if s = "2020-01-01" then 1 else if s = "2020-01-02" then 2
  else if s = "2020-01-03" then 3 else if s = "2020-01-04" then 4
  else if s = "2020-01-05" then 5 else 0

/-- Concrete stand-in for pandas to_numeric(errors="coerce") on the fixture
values: the decimal strings used below parse, anything else (timestamps,
words) is non-parseable and becomes none (NaN). -/
def pn0 : String → Option ℚ := fun s =>
  if s = "5.0" then some 5 else if s = "7.0" then some 7
  else if s = "9.0" then some 9 else none

/-- The schema every fetcher-created economic series table has: the
autoincrement id, the API fields date and value, and the load timestamp. -/
def schemaCols : List String := ["id", "date", "value", "record_load_timestamp"]

/-- A store with one series whose table holds two rows sharing the date
2020-01-02, with distinct ids and values, as two inserts of the same
observation date would produce. -/
def dupStore : Store :=
  [("T", ⟨schemaCols,
      [["1", "2020-01-02", "5.0", "2024-01-01T00:00:00"],
       ["2", "2020-01-02", "7.0", "2024-01-01T00:00:00"]]⟩)]

/-- A store with two series: series A covers the dates keyed 1,2,3,4 and
series B covers the dates keyed 2,3,5. -/
def twoSeriesStore : Store :=
  [("A", ⟨schemaCols,
      [["1", "2020-01-01", "5.0", "ts"],
       ["2", "2020-01-02", "7.0", "ts"],
       ["3", "2020-01-03", "9.0", "ts"],
       ["4", "2020-01-04", "5.0", "ts"]]⟩),
   ("B", ⟨schemaCols,
      [["1", "2020-01-02", "7.0", "ts"],
       ["2", "2020-01-03", "5.0", "ts"],
       ["3", "2020-01-05", "9.0", "ts"]]⟩)]

/-- A store whose only series has rows at dates 2020-01-02 and 2020-01-03,
one parseable value and one not. -/
def oneSeriesStore : Store :=
  [("U", ⟨schemaCols,
      [["1", "2020-01-02", "5.0", "2024-01-01T00:00:00"],
       ["2", "2020-01-03", "oops", "2024-01-01T00:00:00"]]⟩)]

/-- A store in which series E has no rows above the minimum date while
series A has several. -/
def emptySeriesStore : Store :=
  [("A", ⟨schemaCols,
      [["1", "2020-01-01", "5.0", "ts"],
       ["2", "2020-01-02", "7.0", "ts"]]⟩),
   ("E", ⟨schemaCols, [["1", "1999-05-05", "9.0", "ts"]]⟩)]

/-! ## Claim theorems -/

theorem runCmds_ingestorTrace (minDate : String) (store : Store) :
    ∀ names : List String, runCmds (ingestorTrace minDate names) store = store := by
  intro names
  induction names with
  | nil => rfl
  | cons n tl ih =>
      simpa [ingestorTrace, runCmds, List.flatMap_cons, List.foldl_cons, execCmd] using ih

theorem ingestorTrace_all_read (minDate : String) :
    ∀ names : List String, (ingestorTrace minDate names).all isReadCmd = true := by
  intro names
  induction names with
  | nil => rfl
  | cons n tl ih =>
      simp [ingestorTrace, List.flatMap_cons, List.all_append, List.all_cons,
        isReadCmd, ih]

/-- C10: the Data Ingestor is read-only with respect to the store. Both
fetch_and_process_data versions return the store unchanged; the SQL trace
they issue consists of SELECT and PRAGMA table_info commands only, all of
which are reads and, replayed against any store, leave it unchanged; and
scale_data is a pure function of the aligned columns that takes no store
handle at all. -/
theorem c10_ingestor_read_only (dateParse : String → Nat)
    (parseNum : String → Option ℚ) (minDate : String) (store : Store)
    (names : List String) :
    (fetch_and_process_data_v1 dateParse parseNum minDate store names).1 = store ∧
    (fetch_and_process_data_v2 dateParse parseNum minDate store names).1 = store ∧
    runCmds (ingestorTrace minDate names) store = store ∧
    (ingestorTrace minDate names).all isReadCmd = true ∧
    ∀ dfs : List (List ℝ), scale_data dfs = dfs.map standardScale := by
  refine ⟨?_, ?_, runCmds_ingestorTrace minDate store names,
    ingestorTrace_all_read minDate names, fun dfs => rfl⟩
  · rw [fetch_and_process_data_v1, fetchLoop_eq]
  · rw [fetch_and_process_data_v2, fetchLoop_eq]

/-- C8: when some requested series has zero rows with date strictly above
the minimum date, both fetch_and_process_data versions return the empty
matrix: the common-date intersection is empty and every aligned per-series
sequence is empty. In the embedding the functions are total, so this is a
returned value, not an exception. -/
theorem c8_empty_series_empty_matrix (dateParse : String → Nat)
    (parseNum : String → Option ℚ) (minDate : String) (store : Store)
    (names : List String)
    (hempty : ∃ n ∈ names, selectedRows store n minDate = []) :
    (∀ d ∈ (fetch_and_process_data_v1 dateParse parseNum minDate store names).2, d = []) ∧
    (∀ d ∈ (fetch_and_process_data_v2 dateParse parseNum minDate store names).2, d = []) := by
  obtain ⟨n0, hn0, hsel⟩ := hempty
  constructor
  · have hmem : [] ∈ (fetchLoop (processFetched_v1 dateParse parseNum) minDate store names).2 := by
      rw [fetchLoop_eq]
      have : processFetched_v1 dateParse parseNum (tableCols store n0)
          (selectedRows store n0 minDate) = [] := by
        rw [hsel, processFetched_v1_nil]
      exact this ▸ List.mem_map_of_mem _ hn0
    rw [fetch_and_process_data_v1]
    exact align_all_nil_of_mem_nil hmem
  · have hmem : [] ∈ (fetchLoop (processFetched_v2 dateParse parseNum) minDate store names).2 := by
      rw [fetchLoop_eq]
      have : processFetched_v2 dateParse parseNum (tableCols store n0)
          (selectedRows store n0 minDate) = [] := by
        rw [hsel, processFetched_v2_nil]
      exact this ▸ List.mem_map_of_mem _ hn0
    rw [fetch_and_process_data_v2]
    exact align_all_nil_of_mem_nil hmem

/-- Witness for C8 at a concrete store: series E of emptySeriesStore has no
row with date above 2000-01-01, and both pipelines return only empty
per-series sequences for the request [A, E]. -/
theorem c8_empty_series_empty_matrix_witness :
    (∃ n ∈ ["A", "E"], selectedRows emptySeriesStore n "2000-01-01" = []) ∧
    (∀ d ∈ (fetch_and_process_data_v1 dp0 pn0 "2000-01-01" emptySeriesStore ["A", "E"]).2,
        d = []) := by
  have h : ∃ n ∈ ["A", "E"], selectedRows emptySeriesStore n "2000-01-01" = [] :=
    ⟨"E", by decide, by decide⟩
  exact ⟨h, (c8_empty_series_empty_matrix dp0 pn0 "2000-01-01" emptySeriesStore
    ["A", "E"] h).1⟩

/-- C4: after every series is restricted to the common date keys, missing
values are filled backward: the aligned output of each series is the
backward fill of its restriction, where a present value is kept, a missing
value is replaced by the next available value after it in date order, the
sequence missing, missing, 5, 7 fills to 5, 5, 5, 7, and a missing value
with no later available value stays missing. -/
theorem c4_backward_fill (dfs : List (List (Nat × Option ℚ)))
    (d : List (Nat × Option ℚ)) (hd : d ∈ dfs)
    (l : List (Option ℚ)) (i : Nat) (hi : i < l.length) :
    bfillPairs (restrictToCommon dfs d) ∈ alignSeries dfs ∧
    (bfillList l).length = l.length ∧
    (∀ q : ℚ, l.getD i none = some q → (bfillList l).getD i none = some q) ∧
    (l.getD i none = none →
      (bfillList l).getD i none = nextAvailable (l.drop (i + 1))) ∧
    bfillList [none, none, some 5, some 7] = [some 5, some 5, some 5, some 7] ∧
    bfillList [some 5, none] = [some 5, none] := by
  refine ⟨List.mem_map_of_mem _ hd, bfillList_length l, ?_, ?_, by decide, by decide⟩
  · intro q hq
    have h2 := bfillList_getD l i hi
    rw [hq] at h2
    exact h2
  · intro hq
    have h2 := bfillList_getD l i hi
    rw [hq] at h2
    exact h2

/-- Witness for C4 at a concrete input: a series with a missing value in
the middle; the aligned member is in the output and the missing value at
index 1 is filled with the next available value. -/
theorem c4_backward_fill_witness :
    ([(2, some 5), (3, none), (4, some 7)] : List (Nat × Option ℚ))
        ∈ ([[(2, some 5), (3, none), (4, some 7)]] : List (List (Nat × Option ℚ))) ∧
    (1 : Nat) < ([some 5, none, some 7] : List (Option ℚ)).length ∧
    (([some 5, none, some 7] : List (Option ℚ)).getD 1 none = none →
      (bfillList [some 5, none, some 7]).getD 1 none
        = nextAvailable (([some 5, none, some 7] : List (Option ℚ)).drop (1 + 1))) := by
  refine ⟨by decide, by decide, ?_⟩
  exact (c4_backward_fill [[(2, some 5), (3, none), (4, some 7)]]
    [(2, some 5), (3, none), (4, some 7)] (by decide)
    [some 5, none, some 7] 1 (by decide)).2.2.2.1

/-- C1 counterexample: data_ingestion.py coerces column_names[-1], the
final schema column, which for a fetcher-created table is the
record_load_timestamp column itself, not the last data column before it.
On a one-row table with schema id, date, value, record_load_timestamp the
processed series is [(2, none)] - the timestamp text is not parseable as a
number - whereas coercing the last data column before the load timestamp
(the value column) would give [(2, some 5)]. -/
theorem c1_counterexample_v1 :
    processFetched_v1 dp0 pn0 schemaCols
        [["1", "2020-01-02", "5.0", "2024-01-01T00:00:00"]]
      = [(2, none)] ∧
    (dedupRowsBy Prod.fst (indexedRows dp0 schemaCols
        [["1", "2020-01-02", "5.0", "2024-01-01T00:00:00"]])).map
        (fun p => (p.1, pn0 (getCell schemaCols p.2 "value")))
      = [(2, some 5)] ∧
    ([((2 : Nat), (none : Option ℚ))] ≠ [(2, some 5)]) :=
  ⟨by decide, by decide, by decide⟩

/-- C1 amended: in dataIngestion.py the coerced column is column_names[-2],
which for a schema ending in the load-timestamp column is the last data
column before it; the whole column passes through parseNum, so every
non-parseable cell becomes none, which is distinguishable from some 0. In
data_ingestion.py the coerced column is instead column_names[-1], the final
column itself (see the counterexample). -/
theorem c1_value_column_v2 (dateParse : String → Nat) (parseNum : String → Option ℚ)
    (dataCols : List String) (rows : List (List String)) (hne : dataCols ≠ []) :
    processFetched_v2 dateParse parseNum (dataCols ++ ["record_load_timestamp"]) rows
      = (dedupRowsBy (fun q => nonDateCells (dataCols ++ ["record_load_timestamp"]) q.2)
          (indexedRows dateParse (dataCols ++ ["record_load_timestamp"]) rows)).map
          (fun p => (p.1, parseNum (getCell (dataCols ++ ["record_load_timestamp"]) p.2
              (dataCols.getLast hne)))) ∧
    (∀ s : String, parseNum s = none → parseNum s ≠ some 0) := by
  constructor
  · have hlt : dataCols.length - 1 < dataCols.length :=
      Nat.sub_lt (List.length_pos.mpr hne) Nat.one_pos
    have hname : (dataCols ++ ["record_load_timestamp"]).getD
        ((dataCols ++ ["record_load_timestamp"]).length - 2) ""
        = dataCols.getLast hne := by
      have hlen : (dataCols ++ ["record_load_timestamp"]).length - 2
          = dataCols.length - 1 := by
        simp [List.length_append]
      rw [hlen, List.getD_append _ _ _ _ hlt, List.getD_eq_getElem _ _ hlt,
        List.getLast_eq_getElem]
    rw [processFetched_v2, hname]
    rfl
  · intro s hs
    rw [hs]
    exact fun hc => Option.noConfusion hc

/-- Witness for C1 at a concrete input: with data columns id, date, value
followed by the load timestamp, dataIngestion.py coerces the value column
(the last data column), giving some 5 for the parseable row and none - not
some 0 - for the non-parseable row. -/
theorem c1_value_column_v2_witness :
    (["id", "date", "value"] : List String) ≠ [] ∧
    processFetched_v2 dp0 pn0 (["id", "date", "value"] ++ ["record_load_timestamp"])
        [["1", "2020-01-02", "5.0", "ts"], ["2", "2020-01-03", "oops", "ts"]]
      = (dedupRowsBy
          (fun q => nonDateCells (["id", "date", "value"] ++ ["record_load_timestamp"]) q.2)
          (indexedRows dp0 (["id", "date", "value"] ++ ["record_load_timestamp"])
            [["1", "2020-01-02", "5.0", "ts"], ["2", "2020-01-03", "oops", "ts"]])).map
          (fun p => (p.1, pn0 (getCell (["id", "date", "value"] ++ ["record_load_timestamp"])
              p.2 ((["id", "date", "value"] : List String).getLast (by decide))))) ∧
    processFetched_v2 dp0 pn0 (["id", "date", "value"] ++ ["record_load_timestamp"])
        [["1", "2020-01-02", "5.0", "ts"], ["2", "2020-01-03", "oops", "ts"]]
      = [(2, some 5), (3, none)] :=
  ⟨by decide,
   (c1_value_column_v2 dp0 pn0 ["id", "date", "value"]
      [["1", "2020-01-02", "5.0", "ts"], ["2", "2020-01-03", "oops", "ts"]]
      (by decide)).1,
   by decide⟩

/-- C3 counterexample: dataIngestion.py replaced the index-based dedup with
df.drop_duplicates(), which compares the non-date columns and ignores the
date index; since the id column is unique per row, no row is ever dropped.
On a table with two rows sharing date key 2 the aligned output keeps both,
so a date key occurs twice in one series. -/
theorem c3_counterexample_v2 :
    (fetch_and_process_data_v2 dp0 pn0 "2000-01-01" dupStore ["T"]).2
      = [[(2, some 5), (2, some 7)]] ∧
    ¬ ∀ d ∈ (fetch_and_process_data_v2 dp0 pn0 "2000-01-01" dupStore ["T"]).2,
        (keysOf d).Nodup := by
  have heq : (fetch_and_process_data_v2 dp0 pn0 "2000-01-01" dupStore ["T"]).2
      = [[(2, some 5), (2, some 7)]] := by decide
  refine ⟨heq, fun hall => ?_⟩
  have h2 := hall [(2, some 5), (2, some 7)] (by rw [heq]; exact List.mem_singleton.mpr rfl)
  exact absurd h2 (by decide)

/-- C3 amended: in data_ingestion.py the dedup keeps, for every date key,
exactly the first row in insertion order and removes the later ones: the
per-series output equals the key-deduplicated indexed rows coerced to the
value column, its date keys hold no duplicates, every surviving row is the
first row carrying its key, and the key of every input row survives. In
dataIngestion.py the dedup compares row contents instead of the date index
and removes nothing (see the counterexample). -/
theorem c3_dedup_first_v1 (dateParse : String → Nat) (parseNum : String → Option ℚ)
    (cols : List String) (rows : List (List String)) :
    processFetched_v1 dateParse parseNum cols rows
      = (dedupRowsBy Prod.fst (indexedRows dateParse cols rows)).map
          (fun p => (p.1, parseNum (getCell cols p.2 (cols.getD (cols.length - 1) "")))) ∧
    (keysOf (processFetched_v1 dateParse parseNum cols rows)).Nodup ∧
    (∀ p ∈ dedupRowsBy Prod.fst (indexedRows dateParse cols rows),
        (indexedRows dateParse cols rows).find? (fun q => q.1 == p.1) = some p) ∧
    (∀ q ∈ indexedRows dateParse cols rows,
        ∃ p ∈ dedupRowsBy Prod.fst (indexedRows dateParse cols rows), p.1 = q.1) := by
  refine ⟨rfl, ?_, fun p hp => find?_dedupRowsBy_fst hp, ?_⟩
  · have h1 : keysOf (processFetched_v1 dateParse parseNum cols rows)
        = (dedupRowsBy Prod.fst (indexedRows dateParse cols rows)).map Prod.fst := by
      simp [processFetched_v1, coerceColumn, keysOf, List.map_map]
    rw [h1, map_fst_dedupRowsBy]
    exact nodup_dedupKeepFirst _
  · intro q hq
    have hk : q.1 ∈ (dedupRowsBy Prod.fst (indexedRows dateParse cols rows)).map Prod.fst := by
      rw [map_fst_dedupRowsBy, mem_dedupKeepFirst]
      exact List.mem_map_of_mem Prod.fst hq
    obtain ⟨p, hp, hpe⟩ := List.mem_map.mp hk
    exact ⟨p, hp, hpe⟩

/-- Witness for C3 at a concrete input: of two rows sharing date key 2 the
first (id 1, value 5.0) is the one the dedup of data_ingestion.py keeps:
it is found as the first row with that key, and the processed keys hold no
duplicate. -/
theorem c3_dedup_first_v1_witness :
    ((2 : Nat), ["1", "2020-01-02", "5.0", "tsA"])
        ∈ dedupRowsBy Prod.fst (indexedRows dp0 schemaCols
            [["1", "2020-01-02", "5.0", "tsA"], ["2", "2020-01-02", "7.0", "tsB"]]) ∧
    (indexedRows dp0 schemaCols
        [["1", "2020-01-02", "5.0", "tsA"], ["2", "2020-01-02", "7.0", "tsB"]]).find?
        (fun q => q.1 == 2) = some (2, ["1", "2020-01-02", "5.0", "tsA"]) ∧
    (keysOf (processFetched_v1 dp0 pn0 schemaCols
        [["1", "2020-01-02", "5.0", "tsA"], ["2", "2020-01-02", "7.0", "tsB"]])).Nodup := by
  refine ⟨by decide, ?_, ?_⟩
  · exact (c3_dedup_first_v1 dp0 pn0 schemaCols
      [["1", "2020-01-02", "5.0", "tsA"], ["2", "2020-01-02", "7.0", "tsB"]]).2.2.1
      (2, ["1", "2020-01-02", "5.0", "tsA"]) (by decide)
  · exact (c3_dedup_first_v1 dp0 pn0 schemaCols
      [["1", "2020-01-02", "5.0", "tsA"], ["2", "2020-01-02", "7.0", "tsB"]]).2.1

theorem mem_commonDates_map {dfs : List (List (Nat × Option ℚ))} (hne : dfs ≠ [])
    (k : Nat) :
    k ∈ commonDates (dfs.map keysOf) ↔ ∀ d ∈ dfs, k ∈ keysOf d := by
  cases dfs with
  | nil => exact absurd rfl hne
  | cons d0 rest =>
      rw [List.map_cons, mem_commonDates]
      constructor
      · rintro ⟨h0, hrest⟩ d hd
        rcases List.mem_cons.mp hd with rfl | hd
        · exact h0
        · exact hrest (keysOf d) (List.mem_map_of_mem keysOf hd)
      · intro hall
        refine ⟨hall d0 (List.mem_cons_self _ _), fun i hi => ?_⟩
        obtain ⟨d, hd, rfl⟩ := List.mem_map.mp hi
        exact hall d (List.mem_cons_of_mem _ hd)

/-- C5: for a non-empty request whose per-series date keys are strictly
increasing (as the store holds them in date order), every aligned series
covers exactly the intersection of the date-key sets of all series, all aligned
series carry the same ordered date-key list, and one aligned series is
returned per requested series. -/
theorem c5_intersection (dfs : List (List (Nat × Option ℚ))) (hne : dfs ≠ [])
    (hsorted : ∀ d ∈ dfs, List.Pairwise (· < ·) (keysOf d)) :
    (∀ a ∈ alignSeries dfs, ∀ k : Nat, k ∈ keysOf a ↔ ∀ d ∈ dfs, k ∈ keysOf d) ∧
    (∀ a ∈ alignSeries dfs, ∀ b ∈ alignSeries dfs, keysOf a = keysOf b) ∧
    (alignSeries dfs).length = dfs.length := by
  have hkeys : ∀ a ∈ alignSeries dfs, ∀ k : Nat,
      k ∈ keysOf a ↔ ∀ d ∈ dfs, k ∈ keysOf d := by
    intro a ha k
    rw [alignSeries, List.mem_map] at ha
    obtain ⟨d, hd, rfl⟩ := ha
    have hnd : (keysOf d).Nodup :=
      (hsorted d hd).imp (fun h => Nat.ne_of_lt h)
    rw [keysOf_aligned hnd, List.mem_filter]
    constructor
    · rintro ⟨_, hcm⟩
      exact (mem_commonDates_map hne k).mp (by simpa using hcm)
    · intro hall
      exact ⟨hall d hd, by simpa using (mem_commonDates_map hne k).mpr hall⟩
  have hpair : ∀ a ∈ alignSeries dfs, List.Pairwise (· < ·) (keysOf a) := by
    intro a ha
    rw [alignSeries, List.mem_map] at ha
    obtain ⟨d, hd, rfl⟩ := ha
    have hnd : (keysOf d).Nodup :=
      (hsorted d hd).imp (fun h => Nat.ne_of_lt h)
    rw [keysOf_aligned hnd]
    exact (hsorted d hd).sublist (List.filter_sublist _)
  refine ⟨hkeys, fun a ha b hb => ?_, by simp [alignSeries]⟩
  have hnda : (keysOf a).Nodup := (hpair a ha).imp (fun h => Nat.ne_of_lt h)
  have hndb : (keysOf b).Nodup := (hpair b hb).imp (fun h => Nat.ne_of_lt h)
  have hperm : (keysOf a).Perm (keysOf b) := by
    rw [List.perm_ext_iff_of_nodup hnda hndb]
    intro k
    rw [hkeys a ha k, hkeys b hb k]
  exact List.eq_of_perm_of_sorted hperm
    ((hpair a ha).imp (fun h => le_of_lt h))
    ((hpair b hb).imp (fun h => le_of_lt h))

/-- The per-series sequences of the C5 example: series A covers date keys
1, 2, 3, 4 and series B covers 2, 3, 5. -/
def dfsAB : List (List (Nat × Option ℚ)) :=
  [[(1, some 5), (2, some 7), (3, some 9), (4, some 5)],
   [(2, some 7), (3, some 5), (5, some 9)]]

/-- Witness for C5 at the example of the spec: A covers 1,2,3,4 and B covers
2,3,5; both aligned outputs carry the same key list and the aligned matrix
covers exactly the keys 2 and 3. -/
theorem c5_intersection_witness :
    dfsAB ≠ [] ∧
    (∀ d ∈ dfsAB, List.Pairwise (· < ·) (keysOf d)) ∧
    (∀ a ∈ alignSeries dfsAB, ∀ b ∈ alignSeries dfsAB, keysOf a = keysOf b) ∧
    alignSeries dfsAB = [[(2, some 7), (3, some 9)], [(2, some 7), (3, some 5)]] := by
  refine ⟨by decide, by decide,
    (c5_intersection dfsAB (by decide) (by decide)).2.1, by decide⟩

theorem meanR_123 : meanR ([1, 2, 3] : List ℝ) = 2 := by
  rw [meanR]
  simp [List.sum_cons, List.sum_nil]
  norm_num

theorem popVar_123 : popVar ([1, 2, 3] : List ℝ) = 2/3 := by
  rw [popVar, meanR_123]
  simp [List.sum_cons, List.sum_nil]
  norm_num

theorem standardScale_123 :
    standardScale ([1, 2, 3] : List ℝ)
      = [-Real.sqrt (3/2), 0, Real.sqrt (3/2)] := by
  have h1 : popStd ([1, 2, 3] : List ℝ) = Real.sqrt (2/3) := by
    rw [popStd, popVar_123]
  have h2 : Real.sqrt (2/3) ≠ 0 :=
    ne_of_gt (Real.sqrt_pos.mpr (by norm_num))
  have h3 : handleZerosInScale (popStd ([1, 2, 3] : List ℝ)) = Real.sqrt (2/3) := by
    rw [h1, handleZerosInScale, if_neg h2]
  have hsqrt : Real.sqrt (3/2) = (Real.sqrt (2/3))⁻¹ := by
    rw [← Real.sqrt_inv]
    norm_num
  rw [standardScale, h3, meanR_123, hsqrt]
  simp only [List.map_cons, List.map_nil]
  norm_num [div_eq_mul_inv]

theorem sqrt_three_halves_bounds :
    (1.22 : ℝ) < Real.sqrt (3/2) ∧ Real.sqrt (3/2) < 1.23 := by
  have hsq : Real.sqrt ((3:ℝ)/2) ^ 2 = 3/2 := Real.sq_sqrt (by norm_num)
  have hnn : 0 ≤ Real.sqrt ((3:ℝ)/2) := Real.sqrt_nonneg _
  constructor
  · nlinarith [hsq, hnn]
  · nlinarith [hsq, hnn]

/-- C6: scale_data standardizes every column independently; on a column of
nonzero variance every cell becomes (value - mean) / stddev with the
population standard deviation, and the column 1, 2, 3 - of mean 2 and
population variance 2/3 - scales exactly to -sqrt(3/2), 0, sqrt(3/2),
numerically within (1.22, 1.23) in absolute value. -/
theorem c6_standard_scaling (dfs : List (List ℝ)) (xs : List ℝ) (hxs : xs ∈ dfs)
    (hstd : popStd xs ≠ 0) :
    scale_data dfs = dfs.map standardScale ∧
    standardScale xs ∈ scale_data dfs ∧
    standardScale xs = xs.map (fun x => (x - meanR xs) / popStd xs) ∧
    meanR [1, 2, 3] = 2 ∧
    popVar [1, 2, 3] = 2/3 ∧
    standardScale [1, 2, 3] = [-Real.sqrt (3/2), 0, Real.sqrt (3/2)] ∧
    (1.22 : ℝ) < Real.sqrt (3/2) ∧ Real.sqrt (3/2) < 1.23 := by
  refine ⟨rfl, List.mem_map_of_mem _ hxs, ?_, meanR_123, popVar_123, standardScale_123,
    sqrt_three_halves_bounds.1, sqrt_three_halves_bounds.2⟩
  simp only [standardScale, handleZerosInScale, if_neg hstd]

/-- Witness for C6 at the example column of the spec. -/
theorem c6_standard_scaling_witness :
    ([1, 2, 3] : List ℝ) ∈ ([[1, 2, 3]] : List (List ℝ)) ∧
    popStd ([1, 2, 3] : List ℝ) ≠ 0 ∧
    standardScale ([1, 2, 3] : List ℝ)
      = ([1, 2, 3] : List ℝ).map
          (fun x => (x - meanR [1, 2, 3]) / popStd [1, 2, 3]) := by
  have hstd : popStd ([1, 2, 3] : List ℝ) ≠ 0 := by
    rw [popStd, popVar_123]
    exact ne_of_gt (Real.sqrt_pos.mpr (by norm_num))
  exact ⟨List.mem_singleton.mpr rfl, hstd,
    (c6_standard_scaling [[1, 2, 3]] [1, 2, 3] (List.mem_singleton.mpr rfl) hstd).2.2.1⟩

theorem sum_nonneg_all_zero {l : List ℝ} (hnn : ∀ x ∈ l, 0 ≤ x) (hsum : l.sum = 0) :
    ∀ x ∈ l, x = 0 := by
  induction l with
  | nil => intro x hx; simp at hx
  | cons a rest ih =>
      rw [List.sum_cons] at hsum
      have ha : 0 ≤ a := hnn a (List.mem_cons_self _ _)
      have hrest : 0 ≤ rest.sum :=
        List.sum_nonneg (fun x hx => hnn x (List.mem_cons_of_mem _ hx))
      have ha0 : a = 0 := le_antisymm (by linarith) ha
      have hrs : rest.sum = 0 := by linarith
      intro x hx
      rcases List.mem_cons.mp hx with rfl | hx
      · exact ha0
      · exact ih (fun y hy => hnn y (List.mem_cons_of_mem _ hy)) hrs x hx

theorem popVar_444 : popVar ([4, 4, 4] : List ℝ) = 0 := by
  have hm : meanR ([4, 4, 4] : List ℝ) = 4 := by
    rw [meanR]
    simp [List.sum_cons, List.sum_nil]
    norm_num
  rw [popVar, hm]
  simp

/-- C7: on a zero-variance column the scaled output is a defined finite
value, namely 0 in every cell: sklearn replaces the zero standard deviation
by 1 before dividing, so the constant column 4, 4, 4 scales to 0, 0, 0 and
no NaN or infinity is produced. -/
theorem c7_zero_variance (xs : List ℝ) (hne : xs ≠ []) (hvar : popVar xs = 0) :
    standardScale xs = List.replicate xs.length 0 ∧
    handleZerosInScale (popStd xs) = 1 ∧
    standardScale [4, 4, 4] = [0, 0, 0] := by
  have hstd : popStd xs = 0 := by rw [popStd, hvar, Real.sqrt_zero]
  have hlenpos : (0:ℝ) < (xs.length : ℝ) := by
    exact_mod_cast List.length_pos.mpr hne
  have hsum : (xs.map (fun x => (x - meanR xs) ^ 2)).sum = 0 := by
    rw [popVar] at hvar
    rcases div_eq_zero_iff.mp hvar with h | h
    · exact h
    · exact absurd h (ne_of_gt hlenpos)
  have hz := sum_nonneg_all_zero
    (fun y hy => by
      obtain ⟨x, _, rfl⟩ := List.mem_map.mp hy
      positivity)
    hsum
  have hx0 : ∀ x ∈ xs, x - meanR xs = 0 := by
    intro x hx
    have := hz ((x - meanR xs) ^ 2) (List.mem_map_of_mem _ hx)
    exact pow_eq_zero_iff (two_ne_zero) |>.mp this
  have h444 : standardScale ([4, 4, 4] : List ℝ) = [0, 0, 0] := by
    have hm : meanR ([4, 4, 4] : List ℝ) = 4 := by
      rw [meanR]
      simp [List.sum_cons, List.sum_nil]
      norm_num
    rw [standardScale, hm]
    simp
  refine ⟨?_, by rw [hstd, handleZerosInScale, if_pos rfl], h444⟩
  rw [List.eq_replicate_iff]
  refine ⟨by simp [standardScale], fun b hb => ?_⟩
  rw [standardScale, List.mem_map] at hb
  obtain ⟨x, hx, rfl⟩ := hb
  rw [hx0 x hx, zero_div]

/-- Witness for C7 at the example column 4, 4, 4 of the spec. -/
theorem c7_zero_variance_witness :
    ([4, 4, 4] : List ℝ) ≠ [] ∧
    popVar ([4, 4, 4] : List ℝ) = 0 ∧
    standardScale ([4, 4, 4] : List ℝ)
      = List.replicate ([4, 4, 4] : List ℝ).length 0 :=
  ⟨by simp, popVar_444,
   (c7_zero_variance [4, 4, 4] (by simp) popVar_444).1⟩

/-- C9: Table Store round trip. Writing N records with field set a, b, c
into a fresh table inserts exactly one row per record; for each stored row the
populated columns are exactly the record fields plus record_load_timestamp,
plus the ticker entity key exactly when the series is entity-scoped (a
ticker string is given; the hypothesis excludes the degenerate empty-string
ticker, which Python treats as falsy); a field absent from a record is
stored as the empty string; and the created schema prepends the identity
column and the optional entity key to the same field set. -/
theorem c9_round_trip (ticker : Option String) (columns : List String)
    (timestamp : String) (data : List (List (String × String)))
    (ht : ticker ≠ some "") :
    (Fetcher.insert_data ticker columns timestamp data []).length = data.length ∧
    (∀ row ∈ Fetcher.insert_data ticker columns timestamp data [],
        row.map Prod.fst
          = (if ticker.isSome then ["ticker"] else [])
              ++ columns ++ ["record_load_timestamp"]) ∧
    (∀ st ∈ data, ∀ c ∈ columns,
        (c, (st.lookup c).getD "") ∈ Fetcher.insertRowFor ticker columns timestamp st) ∧
    Fetcher.createTableColumns ticker.isSome columns
      = ["id"] ++ (if ticker.isSome then ["ticker"] else [])
          ++ columns ++ ["record_load_timestamp"] := by
  have htt : Fetcher.tickerTruthy ticker = ticker.isSome := by
    cases ticker with
    | none => rfl
    | some t =>
        have hts : t ≠ "" := fun hc => ht (by rw [hc])
        simp [Fetcher.tickerTruthy, hts]
  refine ⟨by simp [Fetcher.insert_data], ?_, ?_, rfl⟩
  · intro row hrow
    rw [Fetcher.insert_data, List.nil_append, List.mem_map] at hrow
    obtain ⟨st, _, rfl⟩ := hrow
    rw [Fetcher.insertRowFor, htt]
    cases hsome : ticker.isSome
    · simp [List.map_append, List.map_map, Function.comp_def]
    · simp [List.map_append, List.map_map, Function.comp_def]
  · intro st _ c hc
    rw [Fetcher.insertRowFor]
    refine List.mem_append.mpr (Or.inl (List.mem_append.mpr (Or.inr ?_)))
    exact List.mem_map_of_mem _ hc

/-- Witness for C9: two records with fields a, b, c - the second missing b -
written for ticker AAPL: two rows, each populated on exactly ticker, a, b,
c, record_load_timestamp, with the missing b stored as the empty string. -/
theorem c9_round_trip_witness :
    (some "AAPL" ≠ some "") ∧
    (Fetcher.insert_data (some "AAPL") ["a", "b", "c"] "ts"
        [[("a", "1"), ("b", "2"), ("c", "3")], [("a", "4"), ("c", "6")]] []).length
      = 2 ∧
    (("b" : String), ("" : String))
      ∈ Fetcher.insertRowFor (some "AAPL") ["a", "b", "c"] "ts" [("a", "4"), ("c", "6")] := by
  refine ⟨by decide, ?_, ?_⟩
  · exact (c9_round_trip (some "AAPL") ["a", "b", "c"] "ts"
      [[("a", "1"), ("b", "2"), ("c", "3")], [("a", "4"), ("c", "6")]] (by decide)).1
  · have h := (c9_round_trip (some "AAPL") ["a", "b", "c"] "ts"
      [[("a", "1"), ("b", "2"), ("c", "3")], [("a", "4"), ("c", "6")]] (by decide)).2.2.1
      [("a", "4"), ("c", "6")] (by decide) "b" (by decide)
    simpa using h

/-- C2: the economic-data insert never inserts anything. The duplicate
check binds the bare string statement["date"] as the parameter sequence, so
for any date longer than one character execute raises a binding error that
aborts the whole loop before commit; and even when binding succeeds (a
one-character date), the check tests the sqlite3 Cursor object itself,
which is always truthy, so the insert branch is unreachable. At the failing
input - one observation for 2020-01-01 against an empty table - the claim
expects the row appended, but the table stays empty; the same happens with
a one-character date. -/
theorem c2_never_inserts :
    Fetcher.fetch_and_insert_economic_data "2024-01-01T00:00:00"
        [[("date", "2020-01-01"), ("value", "1.5")]] [] = [] ∧
    Fetcher.fetch_and_insert_economic_data "2024-01-01T00:00:00"
        [[("date", "5"), ("value", "1.5")]] [] = [] ∧
    Fetcher.cursorTruthy = true :=
  ⟨by decide, by decide, rfl⟩

end DataTools
